import Mathlib

/-!
# Verification of the light2d renderer core

A shallow embedding of the light2d 2D light-transport renderer.

Modelling conventions:
* float32 scalars used for geometry (coordinates, distances, dot products) are
  idealised as real numbers; float rounding is not modelled.
* a ray's `t_max` slot can hold `np.inf`, so it is modelled as `EReal`.
* spectrum channels can hold `inf`, `-inf` and `nan` (the absorbing sentinel
  written by `ConstantLight` is literally `-np.inf`, and the integrator filters
  non-finite samples), so they are modelled by the four-case type `Flt` with
  IEEE-like arithmetic.  Signed zero is not modelled.
* numpy's in-place mutation of the ray / surface-interaction buffers is
  modelled by explicit state passing: an intersect function maps a state
  `(ray, interaction)` to a flag plus the updated state.
* the scene entity handed to `FlatAggregate` and to the path tracer is, in the
  source, an opaque compiled closure; it is modelled as a function value of
  type `IntersectFn`.
* `np.random` is a single global stream; it is modelled by an abstract stream
  of unit draws `ℕ → ℝ` plus an abstract shuffle choice, threaded through by a
  draw counter.  Theorems quantify over all streams, which covers every
  possible PRNG behaviour.
* the Russian-roulette `while True:` loop need not terminate, so it is given
  explicit fuel and returns `none` when the fuel runs out.
-/

noncomputable section

open Classical

namespace Light2d

/-! ## IEEE-like scalar values for spectrum channels -/

/-- A float32 value as stored in a spectrum channel: a finite real, `inf`,
`-inf` or `nan`. -/
inductive Flt
  | num : ℝ → Flt
  | inf : Flt
  | ninf : Flt
  | nan : Flt

/-- `np.isfinite` on one channel. -/
def Flt.isFin : Flt → Bool
  | num _ => true
  | _ => false

/-- IEEE-like addition. -/
def Flt.add : Flt → Flt → Flt
  | nan, _ => nan
  | _, nan => nan
  | inf, ninf => nan
  | ninf, inf => nan
  | inf, _ => inf
  | _, inf => inf
  | ninf, _ => ninf
  | _, ninf => ninf
  | num x, num y => num (x + y)

/-- IEEE-like multiplication. -/
def Flt.mul : Flt → Flt → Flt
  | nan, _ => nan
  | _, nan => nan
  | num x, num y => num (x * y)
  | inf, inf => inf
  | inf, ninf => ninf
  | ninf, inf => ninf
  | ninf, ninf => inf
  | inf, num y => if y = 0 then nan else if 0 < y then inf else ninf
  | num x, inf => if x = 0 then nan else if 0 < x then inf else ninf
  | ninf, num y => if y = 0 then nan else if 0 < y then ninf else inf
  | num x, ninf => if x = 0 then nan else if 0 < x then ninf else inf

/-- IEEE-like division (signed zero not modelled). -/
def Flt.div : Flt → Flt → Flt
  | nan, _ => nan
  | _, nan => nan
  | num x, num y =>
      if y = 0 then (if x = 0 then nan else if 0 < x then inf else ninf)
      else num (x / y)
  | num _, inf => num 0
  | num _, ninf => num 0
  | inf, num y => if 0 ≤ y then inf else ninf
  | ninf, num y => if 0 ≤ y then ninf else inf
  | inf, inf => nan
  | inf, ninf => nan
  | ninf, inf => nan
  | ninf, ninf => nan

/-- IEEE-like strict comparison (`nan` compares false with everything). -/
def Flt.lt : Flt → Flt → Prop
  | nan, _ => False
  | _, nan => False
  | num x, num y => x < y
  | ninf, ninf => False
  | ninf, _ => True
  | _, ninf => False
  | inf, inf => False
  | num _, inf => True
  | inf, num _ => False

/-! ## Spectra (3-channel radiance / attenuation values) -/

/-- A spectrum: three float32 channels. -/
abbrev Spect := Flt × Flt × Flt

/-- Component-wise spectrum addition. -/
def spectAdd (a b : Spect) : Spect :=
  (a.1.add b.1, a.2.1.add b.2.1, a.2.2.add b.2.2)

/-- Component-wise spectrum multiplication. -/
def spectMul (a b : Spect) : Spect :=
  (a.1.mul b.1, a.2.1.mul b.2.1, a.2.2.mul b.2.2)

/-- Division of every channel by one scalar. -/
def spectDivF (a : Spect) (d : Flt) : Spect :=
  (a.1.div d, a.2.1.div d, a.2.2.div d)

/-- `np.any(s > 0)`: at least one channel is strictly positive. -/
def anyPos (s : Spect) : Prop :=
  Flt.lt (Flt.num 0) s.1 ∨ Flt.lt (Flt.num 0) s.2.1 ∨ Flt.lt (Flt.num 0) s.2.2

/-- `np.all(np.isfinite(s))`. -/
def isFiniteSpect (s : Spect) : Bool :=
  s.1.isFin && s.2.1.isFin && s.2.2.isFin

/-- The zero spectrum (`np.zeros(3)`). -/
def zeroSpect : Spect := (Flt.num 0, Flt.num 0, Flt.num 0)

/-- The all-ones spectrum (`np.ones(3)`). -/
def oneSpect : Spect := (Flt.num 1, Flt.num 1, Flt.num 1)

/-! ## 2D vectors -/

/-- A 2D vector of (idealised) float32 coordinates. -/
abbrev Vec := ℝ × ℝ

/-- Vector addition. -/
def vadd (a b : Vec) : Vec := (a.1 + b.1, a.2 + b.2)

/-- Vector subtraction. -/
def vsub (a b : Vec) : Vec := (a.1 - b.1, a.2 - b.2)

/-- Scalar times vector. -/
def vsmul (t : ℝ) (a : Vec) : Vec := (t * a.1, t * a.2)

/-- Vector divided by a scalar, component-wise. -/
def vdivs (a : Vec) (t : ℝ) : Vec := (a.1 / t, a.2 / t)

/-- Dot product. -/
def vdot (a b : Vec) : ℝ := a.1 * b.1 + a.2 * b.2

/-- `np.linalg.norm`. -/
def vnorm (a : Vec) : ℝ := Real.sqrt (vdot a a)

/-! ## Rays and surface interactions -/

/-- A ray: origin, direction (not necessarily normalised) and `t_max`
(element 4 of the 5-float array; initially `np.inf`, hence `EReal`). -/
structure Ray where
  o : Vec
  d : Vec
  tMax : EReal

/-- The 12-float surface-interaction buffer: hit point `p`, outward normal
`n`, emitted radiance `li`, `attenuation`, and scattered direction `d_out`. -/
structure SurfaceInteraction where
  p : Vec
  n : Vec
  li : Spect
  att : Spect
  dOut : Vec

/-- The mutable state an intersect function receives: the ray buffer and the
surface-interaction buffer. -/
abbrev IState := Ray × SurfaceInteraction

/-- An intersect function: the JIT-ed closure interface
`Callable[[Ray, SurfaceInteraction], bool]`, with the in-place mutation made
explicit as a returned state. -/
abbrev IntersectFn := IState → Bool × IState

/-! ## `aligned_box_union` (core/utils.py)

The source calls `np.min(union_box[0], box[0])` and
`np.max(union_box[1], box[1])` inside the loop.  The second positional
parameter of `np.min` / `np.max` is `axis`; passing a float array there makes
numpy raise `TypeError`.  (The component-wise functions would have been
`np.minimum` / `np.maximum`.)  So the loop body always raises, which is
modelled by `Except`. -/

/-- One row (min corner or max corner) of an axis-aligned box: x and y, which
hold `±np.inf` for the empty box, hence `EReal`. -/
abbrev EVec := EReal × EReal

/-- An axis-aligned box: a 2x2 array of coordinates. -/
structure AlignedBox where
  lo : EVec
  hi : EVec

/-- `np.min(a, axis)` where `axis` is a float array: numpy raises `TypeError`
(`axis` must be an integer), regardless of the values. -/
def np_min_array_axis (_a _axis : EVec) : Except Unit EVec := Except.error ()

/-- `np.max(a, axis)` where `axis` is a float array: numpy raises `TypeError`,
regardless of the values. -/
def np_max_array_axis (_a _axis : EVec) : Except Unit EVec := Except.error ()

/-- The initial accumulator of `aligned_box_union`: `(+inf, -inf)`. -/
def empty_box : AlignedBox := ⟨(⊤, ⊤), (⊥, ⊥)⟩

/-- `aligned_box_union` from core/utils.py: starts from the empty box and
folds the loop body (which calls `np.min` / `np.max` with a positional array
`axis` argument) over the boxes. -/
def aligned_box_union (boxes : List AlignedBox) : Except Unit AlignedBox :=
  boxes.foldlM
    (fun u b => do
      let lo ← np_min_array_axis u.lo b.lo
      let hi ← np_max_array_axis u.hi b.hi
      pure ⟨lo, hi⟩)
    empty_box

/-! ## Circle (shapes/circle.py) -/

/-- A circle: centre and radius. -/
structure Circle where
  center : Vec
  radius : ℝ

/-- `d_normalized` in the source: `d / np.linalg.norm(d)`. -/
def circleDHat (d : Vec) : Vec := vdivs d (vnorm d)

/-- `delta` in the source: `d_oc**2 - oc.oc + radius**2` where
`d_oc = d_normalized . (center - o)`. -/
def circleDelta (c : Circle) (o d : Vec) : ℝ :=
  (vdot (circleDHat d) (vsub c.center o)) ^ 2
    - vdot (vsub c.center o) (vsub c.center o) + c.radius ^ 2

/-- `t1` in the source: `(d_oc - sqrt(delta)) / d_norm`, the nearer root in
ray-parameter units. -/
def circleT1 (c : Circle) (o d : Vec) : ℝ :=
  (vdot (circleDHat d) (vsub c.center o) - Real.sqrt (circleDelta c o d)) / vnorm d

/-- `t2` in the source: `(d_oc + sqrt(delta)) / d_norm`, the farther root. -/
def circleT2 (c : Circle) (o d : Vec) : ℝ :=
  (vdot (circleDHat d) (vsub c.center o) + Real.sqrt (circleDelta c o d)) / vnorm d

/-- The hit epilogue of `Circle.intersect` (source lines 60-66): computes
`p = o + d*t`, `n = (p - center)/|p - center|`, writes `ray.t_max`,
`interaction.p`, `interaction.n`, and returns `True`.  The remaining
interaction fields are left unchanged. -/
def circleHit (c : Circle) (s : IState) (t : ℝ) : Bool × IState :=
  let p := vadd s.1.o (vsmul t s.1.d)
  let n := vdivs (vsub p c.center) (vnorm (vsub p c.center))
  (true, (⟨s.1.o, s.1.d, (t : EReal)⟩, ⟨p, n, s.2.li, s.2.att, s.2.dOut⟩))

/-- `Circle.intersect` (source lines 34-66): the branch structure of the
JIT-ed intersect function.  Misses return `False` having written nothing. -/
def Circle.intersect (c : Circle) : IntersectFn := fun s =>
  if 0 ≤ circleDelta c s.1.o s.1.d then
    if ((circleT1 c s.1.o s.1.d : ℝ) : EReal) < s.1.tMax then
      if 0 < circleT1 c s.1.o s.1.d then circleHit c s (circleT1 c s.1.o s.1.d)
      else
        if 0 < circleT2 c s.1.o s.1.d ∧ ((circleT2 c s.1.o s.1.d : ℝ) : EReal) < s.1.tMax then
          circleHit c s (circleT2 c s.1.o s.1.d)
        else (false, s)
    else (false, s)
  else (false, s)

/-! ## ConstantLight (materials/constant_light.py) -/

/-- A constant-light material: the configured radiance. -/
structure ConstantLight where
  li : ℝ × ℝ × ℝ

/-- The scatter function of `ConstantLight`: writes `interaction[4:7] = li`
and `interaction[7:10] = -np.inf`; the ray and the remaining interaction
fields are untouched. -/
def ConstantLight.scatter (m : ConstantLight) (s : IState) : IState :=
  (s.1,
   ⟨s.2.p, s.2.n,
    (Flt.num m.li.1, Flt.num m.li.2.1, Flt.num m.li.2.2),
    (Flt.ninf, Flt.ninf, Flt.ninf),
    s.2.dOut⟩)

/-! ## SimpleEntity (entities/simple_entity.py) -/

/-- `SimpleEntity`'s intersect function: call the shape's intersect; on a miss
return `False` without touching the material; on a hit run the material's
scatter and return `True`. -/
def simple_entity_intersect (shape : Circle) (material : ConstantLight) : IntersectFn :=
  fun s =>
    match shape.intersect s with
    | (false, s') => (false, s')
    | (true, s') => (true, material.scatter s')

/-! ## FlatAggregate (entities/flat_aggregate.py) -/

/-- The loop body of `FlatAggregate`'s intersect function:
`is_intersected = is_intersected or entity_intersect(ray, interaction)`.
Python's `or` short-circuits: once the accumulator is `True`, the child's
intersect function is not called at all. -/
def flat_aggregate_loop : List IntersectFn → Bool → IState → Bool × IState
  | [], acc, s => (acc, s)
  | f :: fs, acc, s =>
      if acc then flat_aggregate_loop fs acc s
      else
        let r := f s
        flat_aggregate_loop fs r.1 r.2

/-- `FlatAggregate`'s intersect function over the tuple of child intersect
closures. -/
def flat_aggregate_intersect (children : List IntersectFn) : IntersectFn :=
  fun s => flat_aggregate_loop children false s

/-! ## PathTracer (integrators/path_tracer.py) -/

/-- `EPSILON` from core/base.py: the self-intersection offset. -/
def EPSILON : ℝ := 1 / 10000

/-- `get_scattered_ray` (source lines 48-59): builds the scattered ray from
the interaction.  The origin is the hit point offset by `EPSILON` along the
normalised normal, on the side of `d_out`; the direction is `d_out`; `t_max`
is reset to `np.inf`.  The incoming ray buffer is overwritten wholesale, so
its old contents do not matter. -/
def get_scattered_ray (_ray : Ray) (ia : SurfaceInteraction) : Ray :=
  let nOffset := vsmul (EPSILON / vnorm ia.n) ia.n
  let oOut := if vdot ia.dOut ia.n < 0 then vsub ia.p nOffset else vadd ia.p nOffset
  ⟨oOut, ia.dOut, ⊤⟩

/-- The running state of `trace`: the ray buffer, the interaction buffer,
`li_sum` and `net_attenuation`. -/
structure TraceSt where
  ray : Ray
  ia : SurfaceInteraction
  liSum : Spect
  netAtt : Spect

/-- The guaranteed-steps loop of `trace` (source lines 67-76):
`for _ in range(n_steps)`.  `Sum.inl` is an early `return li_sum`;
`Sum.inr` is the state with which the Russian-roulette loop starts.
No random draw is consumed here (the only material never draws). -/
def trace_steps (scene : IntersectFn) : ℕ → TraceSt → Spect ⊕ TraceSt
  | 0, st => Sum.inr st
  | n + 1, st =>
      let r := scene (st.ray, st.ia)
      if r.1 then
        let ia' := r.2.2
        let liSum' := spectAdd st.liSum (spectMul ia'.li st.netAtt)
        if anyPos ia'.att then
          trace_steps scene n
            ⟨get_scattered_ray r.2.1 ia', ia', liSum', spectMul st.netAtt ia'.att⟩
        else Sum.inl liSum'
      else Sum.inl st.liSum

/-- The Russian-roulette loop of `trace` (source lines 78-89):
`while True: if not u < q or not intersect(...): return li_sum; ...`.
`u` is the stream of unit draws from the global RNG and `i` the draw counter;
each loop iteration consumes exactly one draw.  Because the test is
`not (u < q) or not hit`, the intersect call is short-circuited away whenever
`u >= q`.  The loop need not terminate, so it carries fuel; `none` means the
fuel ran out.  On a return, the result is paired with the next draw index. -/
def trace_rr (scene : IntersectFn) (u : ℕ → ℝ) (q : ℝ) :
    ℕ → TraceSt → ℕ → Option (Spect × ℕ)
  | 0, _, _ => none
  | fuel + 1, st, i =>
      if u i < q then
        let r := scene (st.ray, st.ia)
        if r.1 then
          let ia' := r.2.2
          let netAtt' := spectDivF st.netAtt (Flt.num (1 - q))
          let liSum' := spectAdd st.liSum (spectMul ia'.li netAtt')
          if anyPos ia'.att then
            trace_rr scene u q fuel
              ⟨get_scattered_ray r.2.1 ia', ia', liSum', spectMul netAtt' ia'.att⟩ (i + 1)
          else some (liSum', i + 1)
        else some (st.liSum, i + 1)
      else some (st.liSum, i + 1)

/-- `trace` (source lines 61-89): starts from an arbitrary uninitialised
interaction buffer `ia0` (`np.empty(12)`), `li_sum = 0`,
`net_attenuation = 1`; runs the guaranteed steps, then the Russian-roulette
loop.  `i` is the global draw counter on entry; the guaranteed steps consume
no draws. -/
def trace (scene : IntersectFn) (u : ℕ → ℝ) (q : ℝ) (nSteps fuel : ℕ)
    (ray : Ray) (ia0 : SurfaceInteraction) (i : ℕ) : Option (Spect × ℕ) :=
  match trace_steps scene nSteps ⟨ray, ia0, zeroSpect, oneSpect⟩ with
  | Sum.inl L => some (L, i)
  | Sum.inr st => trace_rr scene u q fuel st i

/-! ## Stratified sampling and the per-pixel estimate
(`integrate`, source lines 92-128) -/

/-- The abstract global RNG: a stream of unit draws (one per
`np.random.uniform` call, indexed by the draw counter) and, for each counter
value at which `np.random.shuffle` is called, the resulting order of the
angle bins.  Quantifying over all `RngS` values covers every PRNG
behaviour. -/
structure RngS where
  unit : ℕ → ℝ
  perm : ℕ → ℕ → ℕ

/-- `np.random.uniform(a, b)` expressed through a unit draw. -/
def uniform_in (a b u : ℝ) : ℝ := a + (b - a) * u

/-- `np.linspace(a, b, n + 1)[i]`. -/
def linspace_at (a b : ℝ) (n i : ℕ) : ℝ := a + (b - a) * i / n

/-- A finite axis-aligned region (a pixel region or a render region):
min corner and max corner. -/
structure Box where
  lo : Vec
  hi : Vec

/-- Construction of the k-th sample ray (source lines 105-121): origin drawn
uniformly in cell `(row, col) = (k / N, k % N)` of the pixel region, angle
drawn uniformly in the `sigma k`-th of the `N^2` angle bins, `t_max = inf`.
Draw counter: `i` for x, `i+1` for y, `i+2` for the angle. -/
def build_ray (rng : RngS) (sigma : ℕ → ℕ) (N : ℕ) (region : Box) (k i : ℕ) : Ray :=
  let col := k % N
  let row := k / N
  let ox := uniform_in (linspace_at region.lo.1 region.hi.1 N col)
    (linspace_at region.lo.1 region.hi.1 N (col + 1)) (rng.unit i)
  let oy := uniform_in (linspace_at region.lo.2 region.hi.2 N row)
    (linspace_at region.lo.2 region.hi.2 N (row + 1)) (rng.unit (i + 1))
  let ang := uniform_in (linspace_at 0 (2 * Real.pi) (N * N) (sigma k))
    (linspace_at 0 (2 * Real.pi) (N * N) (sigma k + 1)) (rng.unit (i + 2))
  ⟨(ox, oy), (Real.cos ang, Real.sin ang), ⊤⟩

/-- The sample loop of `integrate` (source lines 105-126) over the remaining
sample indices, carrying `(li_sum, valid_count, draw counter)`: trace the
k-th ray and accumulate it only when all its components are finite.
Returns `none` when some path ran out of fuel. -/
def integ_loop (scene : IntersectFn) (rng : RngS) (iaJ : ℕ → SurfaceInteraction)
    (sigma : ℕ → ℕ) (N nSteps : ℕ) (q : ℝ) (fuel : ℕ) (region : Box) :
    List ℕ → Spect × ℕ × ℕ → Option (Spect × ℕ × ℕ)
  | [], acc => some acc
  | k :: ks, acc =>
      match trace scene rng.unit q nSteps fuel
          (build_ray rng sigma N region k acc.2.2) (iaJ k) (acc.2.2 + 3) with
      | none => none
      | some (L, i') =>
          if isFiniteSpect L then
            integ_loop scene rng iaJ sigma N nSteps q fuel region ks
              (spectAdd acc.1 L, acc.2.1 + 1, i')
          else
            integ_loop scene rng iaJ sigma N nSteps q fuel region ks (acc.1, acc.2.1, i')

/-- `integrate` (source lines 92-128): shuffle the angle bins (one RNG event,
at counter `i0`), run the `N^2` samples, and return
`li_sum / float(valid_count)` together with the final draw counter.
`iaJ k` is the arbitrary content of the uninitialised interaction buffer of
the k-th sample's trace. -/
def integrate (scene : IntersectFn) (rng : RngS) (iaJ : ℕ → SurfaceInteraction)
    (N nSteps : ℕ) (q : ℝ) (fuel : ℕ) (region : Box) (i0 : ℕ) : Option (Spect × ℕ) :=
  (integ_loop scene rng iaJ (rng.perm i0) N nSteps q fuel region
      (List.range (N * N)) (zeroSpect, 0, i0 + 1)).map
    (fun acc => (spectDivF acc.1 (Flt.num (acc.2.1 : ℝ)), acc.2.2))

/-- The same sample loop, collecting the list of per-sample radiances instead
of accumulating them (used to state what the accumulation computes). -/
def sample_loop (scene : IntersectFn) (rng : RngS) (iaJ : ℕ → SurfaceInteraction)
    (sigma : ℕ → ℕ) (N nSteps : ℕ) (q : ℝ) (fuel : ℕ) (region : Box) :
    List ℕ → ℕ → Option (List Spect × ℕ)
  | [], i => some ([], i)
  | k :: ks, i =>
      match trace scene rng.unit q nSteps fuel
          (build_ray rng sigma N region k i) (iaJ k) (i + 3) with
      | none => none
      | some (L, i') =>
          match sample_loop scene rng iaJ sigma N nSteps q fuel region ks i' with
          | none => none
          | some (ls, ie) => some (L :: ls, ie)

/-- The sequence of per-sample radiances produced by one `integrate` call. -/
def sample_lis (scene : IntersectFn) (rng : RngS) (iaJ : ℕ → SurfaceInteraction)
    (N nSteps : ℕ) (q : ℝ) (fuel : ℕ) (region : Box) (i0 : ℕ) :
    Option (List Spect × ℕ) :=
  sample_loop scene rng iaJ (rng.perm i0) N nSteps q fuel region
    (List.range (N * N)) (i0 + 1)

/-- The finite samples among a list of per-sample radiances. -/
def finite_samples (ls : List Spect) : List Spect := ls.filter isFiniteSpect

/-- Modelled from the spec: the claimed pixel estimate, the sum of the
radiances whose components are all finite divided by the count of such
samples. -/
def spec_estimate (ls : List Spect) : Spect :=
  spectDivF ((finite_samples ls).foldl spectAdd zeroSpect)
    (Flt.num ((finite_samples ls).length : ℝ))

/-! ## Render driver (core/image.py) -/

/-- The column loop of `render_tile` for one pixel row: for each column,
form the pixel region from consecutive linspace values and call the
integrator, threading the draw counter. -/
def tile_row (integ : Box → ℕ → Option (Spect × ℕ)) (xr : ℕ → ℝ) (ya yb : ℝ) :
    List ℕ → ℕ → Option (List Spect × ℕ)
  | [], i => some ([], i)
  | col :: cols, i =>
      match integ ⟨(xr col, ya), (xr (col + 1), yb)⟩ i with
      | none => none
      | some (px, i') =>
          match tile_row integ xr ya yb cols i' with
          | none => none
          | some (r, ie) => some (px :: r, ie)

/-- The row loop of `render_tile`: rows in order, row 0 first (the bottom of
the image in world coordinates). -/
def tile_rows (integ : Box → ℕ → Option (Spect × ℕ)) (xr yr : ℕ → ℝ) (W : ℕ) :
    List ℕ → ℕ → Option (List (List Spect) × ℕ)
  | [], i => some ([], i)
  | row :: rest, i =>
      match tile_row integ xr (yr row) (yr (row + 1)) (List.range W) i with
      | none => none
      | some (r, i') =>
          match tile_rows integ xr yr W rest i' with
          | none => none
          | some (rs, ie) => some (r :: rs, ie)

/-- `render_tile` (source image.py): precompute the `W+1` x values and `H+1`
y values by linspace over the tile's world region, then integrate every
pixel.  The per-tile RNG is freshly seeded, so the draw counter starts
at 0. -/
def render_tile (integ : Box → ℕ → Option (Spect × ℕ)) (region : Box) (W H : ℕ) :
    Option (List (List Spect) × ℕ) :=
  tile_rows integ (linspace_at region.lo.1 region.hi.1 W)
    (linspace_at region.lo.2 region.hi.2 H) W (List.range H) 0

/-- Horizontal concatenation of two tile films (row-wise append). -/
def hcat2 (a b : List (List Spect)) : List (List Spect) :=
  List.zipWith (fun r c => r ++ c) a b

/-- Horizontal concatenation of a row of tile films. -/
def hcat_tiles : List (List (List Spect)) → List (List Spect)
  | [] => []
  | f :: fs => fs.foldl hcat2 f

/-- `render` (core/image.py, lines 14-90): no argument validation is
performed.  If `n_tiles <= 1`, the whole film is one tile rendered with the
master-seeded RNG.  Otherwise the film is split into an `n_tiles x n_tiles`
grid: column boundaries at multiples of `ceil(W / n_tiles)` with the last
boundary forced to `W` (rows analogously), world boundaries by linear
interpolation of the region corners, one freshly seeded RNG per tile
(`tileRngs k` for the k-th dispatched tile), and the tile films are stitched
back together.  Negative tile widths (possible when `n_tiles` exceeds a film
dimension, where numpy would raise from `np.empty`) are clamped by natural
subtraction. -/
def render (integOf : RngS → Box → ℕ → Option (Spect × ℕ)) (tileRngs : ℕ → RngS)
    (region : Box) (W H : ℕ) (nTiles : ℤ) : Option (List (List Spect)) :=
  if nTiles ≤ 1 then
    (render_tile (integOf (tileRngs 0)) region W H).map Prod.fst
  else
    let T := nTiles.toNat
    let cw := (W + T - 1) / T
    let colIdx := fun i => if i = T then W else i * cw
    let xAt := fun i => ((W : ℝ) - (colIdx i : ℝ)) / (W : ℝ) * region.lo.1
      + (colIdx i : ℝ) / (W : ℝ) * region.hi.1
    let ch := (H + T - 1) / T
    let rowIdx := fun i => if i = T then H else i * ch
    let yAt := fun i => ((H : ℝ) - (rowIdx i : ℝ)) / (H : ℝ) * region.lo.2
      + (rowIdx i : ℝ) / (H : ℝ) * region.hi.2
    ((List.range T).mapM
      (fun i =>
        ((List.range T).mapM
          (fun j =>
            (render_tile (integOf (tileRngs (i * T + j)))
              ⟨(xAt j, yAt i), (xAt (j + 1), yAt (i + 1))⟩
              (colIdx (j + 1) - colIdx j) (rowIdx (i + 1) - rowIdx i)).map
              Prod.fst)).map hcat_tiles)).map List.flatten

/-! ## PathTracer construction (source lines 29-38) -/

/-- The state stored by `PathTracer.__init__`. -/
structure PathTracerArgs where
  entity : IntersectFn
  nSamples : ℕ
  nSteps : ℕ
  q : ℝ

/-- `PathTracer.__init__`: the body only stores
`np.uint32(n_samples)`, `np.uint32(n_steps)` (wrapping modulo `2^32`) and
`np.float32(russian_roulette_q)`; it contains no validation and cannot
raise, which the `Except` return type makes explicit. -/
def path_tracer_init (entity : IntersectFn) (nSamples nSteps : ℤ) (q : ℝ) :
    Except Unit PathTracerArgs :=
  Except.ok ⟨entity, (nSamples % (2 : ℤ) ^ 32).toNat, (nSteps % (2 : ℤ) ^ 32).toNat, q⟩

/-! ## Predicates used by the claims -/

/-- The `t_max` contract of an intersect function: the call changes no ray
field other than `t_max`, never increases `t_max`, and decreases it strictly
exactly when it reports a hit. -/
def TMaxContract (f : IntersectFn) : Prop :=
  ∀ s : IState,
    (f s).2.1.o = s.1.o ∧ (f s).2.1.d = s.1.d ∧
    (f s).2.1.tMax ≤ s.1.tMax ∧ ((f s).2.1.tMax < s.1.tMax ↔ (f s).1 = true)

/-- A concrete arbitrary content for an uninitialised interaction buffer. -/
def junk_ia : SurfaceInteraction := ⟨(0, 0), (0, 0), zeroSpect, zeroSpect, (0, 0)⟩

/-! ## Helper lemmas -/

lemma flt_add_zero (a : Flt) : a.add (Flt.num 0) = a := by
  cases a <;> simp [Flt.add]

lemma spect_add_zero (s : Spect) : spectAdd s zeroSpect = s := by
  obtain ⟨a, b, c⟩ := s
  simp [spectAdd, zeroSpect, flt_add_zero]

lemma scatter_keeps_ray (m : ConstantLight) (s : IState) : (m.scatter s).1 = s.1 := rfl

lemma circle_contract (c : Circle) : TMaxContract (Circle.intersect c) := by
  intro s
  unfold Circle.intersect
  split_ifs with h1 h2 h3 h4
  · exact ⟨rfl, rfl, le_of_lt h2, by simpa [circleHit] using h2⟩
  · exact ⟨rfl, rfl, le_of_lt h4.2, by simpa [circleHit] using h4.2⟩
  · exact ⟨rfl, rfl, le_refl _, by simp⟩
  · exact ⟨rfl, rfl, le_refl _, by simp⟩
  · exact ⟨rfl, rfl, le_refl _, by simp⟩

lemma simple_entity_contract (sh : Circle) (m : ConstantLight) :
    TMaxContract (simple_entity_intersect sh m) := by
  intro s
  have h := circle_contract sh s
  rcases hres : sh.intersect s with ⟨b, s'⟩
  rw [hres] at h
  cases b
  · simp only [simple_entity_intersect, hres]
    simpa using h
  · simp only [simple_entity_intersect, hres]
    simpa [ConstantLight.scatter] using h

lemma flat_aggregate_loop_true (fs : List IntersectFn) (s : IState) :
    flat_aggregate_loop fs true s = (true, s) := by
  induction fs with
  | nil => rfl
  | cons f fs ih => simp [flat_aggregate_loop, ih]

lemma flat_aggregate_loop_contract :
    ∀ children : List IntersectFn, (∀ f ∈ children, TMaxContract f) →
    ∀ (acc : Bool) (s : IState),
    (flat_aggregate_loop children acc s).2.1.o = s.1.o ∧
    (flat_aggregate_loop children acc s).2.1.d = s.1.d ∧
    (flat_aggregate_loop children acc s).2.1.tMax ≤ s.1.tMax ∧
    ((flat_aggregate_loop children acc s).2.1.tMax < s.1.tMax ↔
      ((flat_aggregate_loop children acc s).1 = true ∧ acc = false)) := by
  intro children
  induction children with
  | nil =>
      intro _ acc s
      cases acc <;> simp [flat_aggregate_loop]
  | cons f fs ih =>
      intro hmem acc s
      have hfc := hmem f (List.mem_cons_self f fs) s
      have hfs : ∀ g ∈ fs, TMaxContract g := fun g hg => hmem g (List.mem_cons_of_mem f hg)
      cases acc
      case true =>
        rw [flat_aggregate_loop_true]
        simp
      case false =>
        rcases hres : f s with ⟨b, s'⟩
        rw [hres] at hfc
        obtain ⟨ho, hd, hle, hiff⟩ := hfc
        have hstep : flat_aggregate_loop (f :: fs) false s = flat_aggregate_loop fs b s' := by
          simp [flat_aggregate_loop, hres]
        rw [hstep]
        cases b
        case false =>
          have hnlt : ¬ s'.1.tMax < s.1.tMax := fun hlt => by
            exact Bool.false_ne_true (hiff.mp hlt)
          have heq : s'.1.tMax = s.1.tMax := le_antisymm hle (not_lt.mp hnlt)
          obtain ⟨ro, rd, rle, riff⟩ := ih hfs false s'
          refine ⟨ro.trans ho, rd.trans hd, ?_, ?_⟩
          · rw [← heq]; exact rle
          · rw [← heq]; exact riff
        case true =>
          have hlt : s'.1.tMax < s.1.tMax := hiff.mpr rfl
          rw [flat_aggregate_loop_true]
          exact ⟨ho, hd, le_of_lt hlt, by simp [hlt]⟩

lemma circle_miss_state (c : Circle) (s : IState) :
    (Circle.intersect c s).1 = false → (Circle.intersect c s).2 = s := by
  intro h
  unfold Circle.intersect at h ⊢
  split_ifs at h ⊢ <;> simp_all [circleHit]

lemma simple_entity_miss_state (sh : Circle) (m : ConstantLight) (s : IState) :
    (simple_entity_intersect sh m s).1 = false →
    (simple_entity_intersect sh m s).2 = s := by
  intro h
  rcases hres : sh.intersect s with ⟨b, s'⟩
  cases b
  · have h2 := circle_miss_state sh s (by rw [hres])
    rw [hres] at h2
    simp only [simple_entity_intersect, hres]
    simpa using h2
  · simp only [simple_entity_intersect, hres] at h
    simp at h

lemma circle_hit_two (ia : SurfaceInteraction) :
    Circle.intersect ⟨((2 : ℝ), (0 : ℝ)), 1⟩ (⟨((-1 : ℝ), (0 : ℝ)), ((1 : ℝ), (0 : ℝ)), ⊤⟩, ia) =
      (true, ⟨((-1 : ℝ), (0 : ℝ)), ((1 : ℝ), (0 : ℝ)), ((2 : ℝ) : EReal)⟩,
        ⟨((1 : ℝ), (0 : ℝ)), ((-1 : ℝ), (0 : ℝ)), ia.li, ia.att, ia.dOut⟩) := by
  norm_num [Circle.intersect, circleDelta, circleT1, circleT2, circleDHat, circleHit,
    vadd, vsmul, vsub, vdivs, vnorm, vdot, Real.sqrt_one, EReal.coe_lt_top]

lemma circle_hit_six (ia : SurfaceInteraction) :
    Circle.intersect ⟨((6 : ℝ), (0 : ℝ)), 1⟩ (⟨((-1 : ℝ), (0 : ℝ)), ((1 : ℝ), (0 : ℝ)), ⊤⟩, ia) =
      (true, ⟨((-1 : ℝ), (0 : ℝ)), ((1 : ℝ), (0 : ℝ)), ((6 : ℝ) : EReal)⟩,
        ⟨((5 : ℝ), (0 : ℝ)), ((-1 : ℝ), (0 : ℝ)), ia.li, ia.att, ia.dOut⟩) := by
  norm_num [Circle.intersect, circleDelta, circleT1, circleT2, circleDHat, circleHit,
    vadd, vsmul, vsub, vdivs, vnorm, vdot, Real.sqrt_one, EReal.coe_lt_top]

lemma circle_miss_eval :
    (Circle.intersect ⟨((3 : ℝ), (0 : ℝ)), 1⟩
      (⟨((0 : ℝ), (5 : ℝ)), ((1 : ℝ), (0 : ℝ)), ⊤⟩, junk_ia)).1 = false := by
  norm_num [Circle.intersect, circleDelta, circleDHat, vdivs, vnorm, vdot, vsub,
    Real.sqrt_one]

lemma simple_miss_eval :
    (simple_entity_intersect ⟨((3 : ℝ), (0 : ℝ)), 1⟩ ⟨(1, 1, 1)⟩
      (⟨((0 : ℝ), (5 : ℝ)), ((1 : ℝ), (0 : ℝ)), ⊤⟩, junk_ia)).1 = false := by
  have h2 := circle_miss_state _ _ circle_miss_eval
  have hfull : Circle.intersect ⟨((3 : ℝ), (0 : ℝ)), 1⟩
      (⟨((0 : ℝ), (5 : ℝ)), ((1 : ℝ), (0 : ℝ)), ⊤⟩, junk_ia) =
      (false, (⟨((0 : ℝ), (5 : ℝ)), ((1 : ℝ), (0 : ℝ)), ⊤⟩, junk_ia)) :=
    Prod.ext_iff.mpr ⟨circle_miss_eval, h2⟩
  simp [simple_entity_intersect, hfull]

lemma circle_hit_iff (c : Circle) (ray : Ray) (ia : SurfaceInteraction) :
    (Circle.intersect c (ray, ia)).1 = true ↔
      (0 ≤ circleDelta c ray.o ray.d ∧
        ((0 < circleT1 c ray.o ray.d ∧ ((circleT1 c ray.o ray.d : ℝ) : EReal) < ray.tMax) ∨
         (circleT1 c ray.o ray.d ≤ 0 ∧ 0 < circleT2 c ray.o ray.d ∧
           ((circleT2 c ray.o ray.d : ℝ) : EReal) < ray.tMax))) := by
  unfold Circle.intersect
  split_ifs with h1 h2 h3 h4
  · exact iff_of_true rfl ⟨h1, Or.inl ⟨h3, h2⟩⟩
  · exact iff_of_true rfl ⟨h1, Or.inr ⟨not_lt.mp h3, h4.1, h4.2⟩⟩
  · apply iff_of_false (by simp)
    rintro ⟨_, hca | hcb⟩
    · exact h3 hca.1
    · exact h4 ⟨hcb.2.1, hcb.2.2⟩
  · apply iff_of_false (by simp)
    rintro ⟨_, hca | hcb⟩
    · exact h2 hca.2
    · exact h2 (lt_trans (EReal.coe_lt_coe_iff.mpr
        (lt_of_le_of_lt hcb.1 hcb.2.1)) hcb.2.2)
  · apply iff_of_false (by simp)
    rintro ⟨hδ, _⟩
    exact h1 hδ

lemma circle_hit_output (c : Circle) (ray : Ray) (ia : SurfaceInteraction) :
    (Circle.intersect c (ray, ia)).1 = true →
      (Circle.intersect c (ray, ia)).2 =
        (⟨ray.o, ray.d,
           ((if 0 < circleT1 c ray.o ray.d then circleT1 c ray.o ray.d
             else circleT2 c ray.o ray.d : ℝ) : EReal)⟩,
         ⟨vadd ray.o (vsmul (if 0 < circleT1 c ray.o ray.d then circleT1 c ray.o ray.d
             else circleT2 c ray.o ray.d) ray.d),
          vdivs
            (vsub (vadd ray.o (vsmul (if 0 < circleT1 c ray.o ray.d then
                circleT1 c ray.o ray.d else circleT2 c ray.o ray.d) ray.d)) c.center)
            (vnorm (vsub (vadd ray.o (vsmul (if 0 < circleT1 c ray.o ray.d then
                circleT1 c ray.o ray.d else circleT2 c ray.o ray.d) ray.d)) c.center)),
          ia.li, ia.att, ia.dOut⟩) := by
  intro h
  unfold Circle.intersect at h ⊢
  split_ifs at h ⊢ with h1 h2 h3 h4
  · rfl
  · rfl

/-! ## Claim theorems -/

/-- C3: the claim says `aligned_box_union` returns the component-wise union
(min of mins, max of maxes) for every finite iterable.  In fact the empty
iterable returns the identity `(+inf, -inf)` as claimed, but any non-empty
iterable makes the loop body raise `TypeError`, because the source passes the
second box row as the positional `axis` argument of `np.min` / `np.max`
instead of calling `np.minimum` / `np.maximum`. -/
theorem aligned_box_union_raises_on_nonempty :
    aligned_box_union [] = Except.ok empty_box ∧
    aligned_box_union [⟨((0 : EReal), (0 : EReal)), ((1 : EReal), (1 : EReal))⟩] =
      Except.error () := by
  exact ⟨rfl, rfl⟩

/-- C5: one iteration of the Russian-roulette loop returns the accumulated
`li_sum` exactly when the fresh uniform draw is at least `q` or the scene
intersection reports no hit; otherwise it divides `net_attenuation` by
`1 - q`, then accumulates `li_sum += li * net_attenuation`, returns if no
attenuation component is positive, and otherwise multiplies the attenuation
in and continues with the scattered ray. -/
theorem russian_roulette_loop_structure (scene : IntersectFn) (u : ℕ → ℝ) (q : ℝ)
    (fuel : ℕ) (st : TraceSt) (i : ℕ) :
    trace_rr scene u q (fuel + 1) st i =
      if ¬ u i < q ∨ (scene (st.ray, st.ia)).1 = false then some (st.liSum, i + 1)
      else
        if ¬ anyPos (scene (st.ray, st.ia)).2.2.att then
          some (spectAdd st.liSum (spectMul (scene (st.ray, st.ia)).2.2.li
            (spectDivF st.netAtt (Flt.num (1 - q)))), i + 1)
        else
          trace_rr scene u q fuel
            ⟨get_scattered_ray (scene (st.ray, st.ia)).2.1 (scene (st.ray, st.ia)).2.2,
             (scene (st.ray, st.ia)).2.2,
             spectAdd st.liSum (spectMul (scene (st.ray, st.ia)).2.2.li
               (spectDivF st.netAtt (Flt.num (1 - q)))),
             spectMul (spectDivF st.netAtt (Flt.num (1 - q)))
               (scene (st.ray, st.ia)).2.2.att⟩
            (i + 1) := by
  by_cases hu : u i < q
  · cases hb : (scene (st.ray, st.ia)).1
    · simp [trace_rr, hu, hb]
    · by_cases ha : anyPos (scene (st.ray, st.ia)).2.2.att
      · simp [trace_rr, hu, hb, ha]
      · simp [trace_rr, hu, hb, ha]
  · simp [trace_rr, hu]

/-- C6: every intersect call (Circle at the shape level, SimpleEntity, and
FlatAggregate over children that honour the contract) leaves the ray's
origin and direction unchanged, never increases `t_max`, and decreases it
strictly exactly when it returns a hit. -/
theorem intersect_tmax_monotone :
    (∀ c : Circle, TMaxContract (Circle.intersect c)) ∧
    (∀ (sh : Circle) (m : ConstantLight), TMaxContract (simple_entity_intersect sh m)) ∧
    (∀ children : List IntersectFn, (∀ f ∈ children, TMaxContract f) →
      TMaxContract (flat_aggregate_intersect children)) := by
  refine ⟨circle_contract, simple_entity_contract, ?_⟩
  intro children h s
  have hc := flat_aggregate_loop_contract children h false s
  obtain ⟨ho, hd, hle, hiff⟩ := hc
  exact ⟨ho, hd, hle, by simpa using hiff⟩

/-- C6 witness: the contract holds for the concrete one-child aggregate over
a circle entity, with both hypotheses discharged through the theorem. -/
theorem intersect_tmax_monotone_witness :
    TMaxContract (flat_aggregate_intersect
      [simple_entity_intersect ⟨((2 : ℝ), (0 : ℝ)), 1⟩ ⟨(1, 1, 1)⟩]) := by
  refine intersect_tmax_monotone.2.2 _ ?_
  intro f hf
  simp only [List.mem_singleton] at hf
  subst hf
  exact intersect_tmax_monotone.2.1 _ _

/-- C10: when an intersect call reports a miss, the whole state (interaction
and ray) is returned unchanged: the Circle intersect writes nothing before
any of its miss returns, and SimpleEntity does not run the material's scatter
on a shape miss. -/
theorem miss_leaves_interaction_unchanged :
    (∀ (c : Circle) (s : IState),
      (Circle.intersect c s).1 = false → (Circle.intersect c s).2 = s) ∧
    (∀ (sh : Circle) (m : ConstantLight) (s : IState),
      (simple_entity_intersect sh m s).1 = false →
        (simple_entity_intersect sh m s).2 = s) := by
  exact ⟨circle_miss_state, simple_entity_miss_state⟩

/-- C4: the circle intersect returns a hit exactly when the discriminant is
nonnegative and either the nearer root `t1` lies strictly in `(0, t_max)` or
`t1 ≤ 0` and the farther root `t2` lies strictly in `(0, t_max)`; on a hit it
writes `t_max := t`, `p := o + d*t` and `n := (p - c)/|p - c|` and leaves the
other interaction fields alone; tangent rays (`delta = 0`) hit only when `t1`
is strictly positive and strictly below `t_max`. -/
theorem circle_intersect_correct (c : Circle) (ray : Ray) (ia : SurfaceInteraction) :
    ((Circle.intersect c (ray, ia)).1 = true ↔
      (0 ≤ circleDelta c ray.o ray.d ∧
        ((0 < circleT1 c ray.o ray.d ∧ ((circleT1 c ray.o ray.d : ℝ) : EReal) < ray.tMax) ∨
         (circleT1 c ray.o ray.d ≤ 0 ∧ 0 < circleT2 c ray.o ray.d ∧
           ((circleT2 c ray.o ray.d : ℝ) : EReal) < ray.tMax)))) ∧
    ((Circle.intersect c (ray, ia)).1 = true →
      (Circle.intersect c (ray, ia)).2 =
        (⟨ray.o, ray.d,
           ((if 0 < circleT1 c ray.o ray.d then circleT1 c ray.o ray.d
             else circleT2 c ray.o ray.d : ℝ) : EReal)⟩,
         ⟨vadd ray.o (vsmul (if 0 < circleT1 c ray.o ray.d then circleT1 c ray.o ray.d
             else circleT2 c ray.o ray.d) ray.d),
          vdivs
            (vsub (vadd ray.o (vsmul (if 0 < circleT1 c ray.o ray.d then
                circleT1 c ray.o ray.d else circleT2 c ray.o ray.d) ray.d)) c.center)
            (vnorm (vsub (vadd ray.o (vsmul (if 0 < circleT1 c ray.o ray.d then
                circleT1 c ray.o ray.d else circleT2 c ray.o ray.d) ray.d)) c.center)),
          ia.li, ia.att, ia.dOut⟩)) ∧
    (circleDelta c ray.o ray.d = 0 →
      ((Circle.intersect c (ray, ia)).1 = true ↔
        (0 < circleT1 c ray.o ray.d ∧ ((circleT1 c ray.o ray.d : ℝ) : EReal) < ray.tMax))) := by
  refine ⟨circle_hit_iff c ray ia, circle_hit_output c ray ia, ?_⟩
  intro hδ
  have ht : circleT2 c ray.o ray.d = circleT1 c ray.o ray.d := by
    unfold circleT1 circleT2
    rw [hδ, Real.sqrt_zero]
    ring
  rw [circle_hit_iff]
  constructor
  · rintro ⟨_, hca | hcb⟩
    · exact hca
    · rw [ht] at hcb
      exact absurd hcb.2.1 (not_lt.mpr hcb.1)
  · intro hh
    exact ⟨le_of_eq hδ.symm, Or.inl hh⟩

/-- C4 witness: the tangent ray from `(-5, 0)` along `+x` against the unit
circle at `(0, 1)`: the discriminant is zero, the ray hits at `t = 5` with
`p = (0, 0)` and `n = (0, -1)`, evaluated through the theorem. -/
theorem circle_intersect_correct_witness :
    circleDelta ⟨((0 : ℝ), (1 : ℝ)), 1⟩ ((-5 : ℝ), (0 : ℝ)) ((1 : ℝ), (0 : ℝ)) = 0 ∧
    (Circle.intersect ⟨((0 : ℝ), (1 : ℝ)), 1⟩
      (⟨((-5 : ℝ), (0 : ℝ)), ((1 : ℝ), (0 : ℝ)), ⊤⟩, junk_ia)).1 = true ∧
    (Circle.intersect ⟨((0 : ℝ), (1 : ℝ)), 1⟩
      (⟨((-5 : ℝ), (0 : ℝ)), ((1 : ℝ), (0 : ℝ)), ⊤⟩, junk_ia)).2.1.tMax = ((5 : ℝ) : EReal) ∧
    (Circle.intersect ⟨((0 : ℝ), (1 : ℝ)), 1⟩
      (⟨((-5 : ℝ), (0 : ℝ)), ((1 : ℝ), (0 : ℝ)), ⊤⟩, junk_ia)).2.2.p = ((0 : ℝ), (0 : ℝ)) ∧
    (Circle.intersect ⟨((0 : ℝ), (1 : ℝ)), 1⟩
      (⟨((-5 : ℝ), (0 : ℝ)), ((1 : ℝ), (0 : ℝ)), ⊤⟩, junk_ia)).2.2.n = ((0 : ℝ), (-1 : ℝ)) := by
  have hδ : circleDelta ⟨((0 : ℝ), (1 : ℝ)), 1⟩ ((-5 : ℝ), (0 : ℝ)) ((1 : ℝ), (0 : ℝ)) = 0 := by
    norm_num [circleDelta, circleDHat, vdivs, vnorm, vdot, vsub, Real.sqrt_one]
  have ht1 : circleT1 ⟨((0 : ℝ), (1 : ℝ)), 1⟩ ((-5 : ℝ), (0 : ℝ)) ((1 : ℝ), (0 : ℝ)) = 5 := by
    norm_num [circleT1, circleDelta, circleDHat, vdivs, vnorm, vdot, vsub,
      Real.sqrt_one, Real.sqrt_zero]
  have h := circle_intersect_correct ⟨((0 : ℝ), (1 : ℝ)), 1⟩
    ⟨((-5 : ℝ), (0 : ℝ)), ((1 : ℝ), (0 : ℝ)), ⊤⟩ junk_ia
  have hhit : (Circle.intersect ⟨((0 : ℝ), (1 : ℝ)), 1⟩
      (⟨((-5 : ℝ), (0 : ℝ)), ((1 : ℝ), (0 : ℝ)), ⊤⟩, junk_ia)).1 = true :=
    (h.2.2 hδ).mpr ⟨by rw [ht1]; norm_num, by rw [ht1]; exact EReal.coe_lt_top 5⟩
  have hout := h.2.1 hhit
  refine ⟨hδ, hhit, ?_, ?_, ?_⟩
  · norm_num [hout, ht1]
  · norm_num [hout, ht1, vadd, vsmul]
  · norm_num [hout, ht1, vadd, vsmul, vsub, vdivs, vnorm, vdot, Real.sqrt_one]

/-- C1: the claim says `FlatAggregate.intersect` invokes every child in order
with no short-circuit, so the reported hit is permutation-invariant.  In fact
the loop `is_intersected = is_intersected or child(...)` short-circuits after
the first hit, so with two emissive circles on the ray, listing the farther
one first reports the farther hit `p = (5, 0)` (`t_max = 6`), while the
swapped order reports `p = (1, 0)` (`t_max = 2`). -/
theorem flat_aggregate_order_dependent :
    ((flat_aggregate_intersect
        [simple_entity_intersect ⟨((6 : ℝ), (0 : ℝ)), 1⟩ ⟨(1, 1, 1)⟩,
         simple_entity_intersect ⟨((2 : ℝ), (0 : ℝ)), 1⟩ ⟨(1, 1, 1)⟩]
        (⟨((-1 : ℝ), (0 : ℝ)), ((1 : ℝ), (0 : ℝ)), ⊤⟩, junk_ia)).2.2.p = ((5 : ℝ), (0 : ℝ)) ∧
     (flat_aggregate_intersect
        [simple_entity_intersect ⟨((6 : ℝ), (0 : ℝ)), 1⟩ ⟨(1, 1, 1)⟩,
         simple_entity_intersect ⟨((2 : ℝ), (0 : ℝ)), 1⟩ ⟨(1, 1, 1)⟩]
        (⟨((-1 : ℝ), (0 : ℝ)), ((1 : ℝ), (0 : ℝ)), ⊤⟩, junk_ia)).2.1.tMax = ((6 : ℝ) : EReal)) ∧
    ((flat_aggregate_intersect
        [simple_entity_intersect ⟨((2 : ℝ), (0 : ℝ)), 1⟩ ⟨(1, 1, 1)⟩,
         simple_entity_intersect ⟨((6 : ℝ), (0 : ℝ)), 1⟩ ⟨(1, 1, 1)⟩]
        (⟨((-1 : ℝ), (0 : ℝ)), ((1 : ℝ), (0 : ℝ)), ⊤⟩, junk_ia)).2.2.p = ((1 : ℝ), (0 : ℝ)) ∧
     (flat_aggregate_intersect
        [simple_entity_intersect ⟨((2 : ℝ), (0 : ℝ)), 1⟩ ⟨(1, 1, 1)⟩,
         simple_entity_intersect ⟨((6 : ℝ), (0 : ℝ)), 1⟩ ⟨(1, 1, 1)⟩]
        (⟨((-1 : ℝ), (0 : ℝ)), ((1 : ℝ), (0 : ℝ)), ⊤⟩, junk_ia)).2.1.tMax = ((2 : ℝ) : EReal)) := by
  refine ⟨⟨?_, ?_⟩, ?_, ?_⟩ <;>
    simp [flat_aggregate_intersect, flat_aggregate_loop, simple_entity_intersect,
      circle_hit_six, circle_hit_two, ConstantLight.scatter]

/-- C2: the claim (and the class docstring) say `q` is the probability of
stopping at each Russian-roulette step, i.e. the tracer stops exactly when
`u < q`.  The code has the inequality flipped: it continues exactly when
`u < q` and stops when `u ≥ q`.  With `q = 0.05`, `n_steps = 0`, an emissive
circle ahead of the ray and a draw `u = 0.01 < q`, where the claim requires
an immediate stop with `L = 0`, the tracer continues and accumulates
`li / (1 - q) = 20/19`; with `u = 0.5 ≥ q`, where the claim requires
continuing, it stops with `L = 0`. -/
theorem russian_roulette_inequality_flipped :
    trace (simple_entity_intersect ⟨((2 : ℝ), (0 : ℝ)), 1⟩ ⟨(1, 1, 1)⟩)
        (fun _ => 1 / 100) (1 / 20) 0 1
        ⟨((-1 : ℝ), (0 : ℝ)), ((1 : ℝ), (0 : ℝ)), ⊤⟩ junk_ia 0
      = some ((Flt.num (20 / 19), Flt.num (20 / 19), Flt.num (20 / 19)), 1) ∧
    trace (simple_entity_intersect ⟨((2 : ℝ), (0 : ℝ)), 1⟩ ⟨(1, 1, 1)⟩)
        (fun _ => 1 / 2) (1 / 20) 0 1
        ⟨((-1 : ℝ), (0 : ℝ)), ((1 : ℝ), (0 : ℝ)), ⊤⟩ junk_ia 0
      = some (zeroSpect, 1) := by
  constructor
  · norm_num [trace, trace_steps, trace_rr, simple_entity_intersect, circle_hit_two,
      ConstantLight.scatter, spectDivF, Flt.div, spectAdd, Flt.add, spectMul, Flt.mul,
      anyPos, Flt.lt, zeroSpect, oneSpect]
  · norm_num [trace, trace_steps, trace_rr, zeroSpect]

/-- C10 witness: the ray from `(0, 5)` along `+x` misses the unit circle at
`(3, 0)`; both the shape-level and the entity-level intersect report the miss
and, through the theorem, leave the state untouched. -/
theorem miss_leaves_interaction_unchanged_witness :
    (Circle.intersect ⟨((3 : ℝ), (0 : ℝ)), 1⟩
      (⟨((0 : ℝ), (5 : ℝ)), ((1 : ℝ), (0 : ℝ)), ⊤⟩, junk_ia)).1 = false ∧
    (Circle.intersect ⟨((3 : ℝ), (0 : ℝ)), 1⟩
      (⟨((0 : ℝ), (5 : ℝ)), ((1 : ℝ), (0 : ℝ)), ⊤⟩, junk_ia)).2
      = (⟨((0 : ℝ), (5 : ℝ)), ((1 : ℝ), (0 : ℝ)), ⊤⟩, junk_ia) ∧
    (simple_entity_intersect ⟨((3 : ℝ), (0 : ℝ)), 1⟩ ⟨(1, 1, 1)⟩
      (⟨((0 : ℝ), (5 : ℝ)), ((1 : ℝ), (0 : ℝ)), ⊤⟩, junk_ia)).1 = false ∧
    (simple_entity_intersect ⟨((3 : ℝ), (0 : ℝ)), 1⟩ ⟨(1, 1, 1)⟩
      (⟨((0 : ℝ), (5 : ℝ)), ((1 : ℝ), (0 : ℝ)), ⊤⟩, junk_ia)).2
      = (⟨((0 : ℝ), (5 : ℝ)), ((1 : ℝ), (0 : ℝ)), ⊤⟩, junk_ia) :=
  ⟨circle_miss_eval,
   miss_leaves_interaction_unchanged.1 _ _ circle_miss_eval,
   simple_miss_eval,
   miss_leaves_interaction_unchanged.2 _ _ _ simple_miss_eval⟩

lemma integ_loop_eq_sample (scene : IntersectFn) (rng : RngS)
    (iaJ : ℕ → SurfaceInteraction) (sigma : ℕ → ℕ) (N nSteps : ℕ) (q : ℝ)
    (fuel : ℕ) (region : Box) :
    ∀ (ks : List ℕ) (s : Spect) (c i : ℕ),
      integ_loop scene rng iaJ sigma N nSteps q fuel region ks (s, c, i) =
        (sample_loop scene rng iaJ sigma N nSteps q fuel region ks i).map
          (fun p => ((finite_samples p.1).foldl spectAdd s,
            c + (finite_samples p.1).length, p.2)) := by
  intro ks
  induction ks with
  | nil =>
      intro s c i
      simp [integ_loop, sample_loop, finite_samples]
  | cons k ks ih =>
      intro s c i
      simp only [integ_loop, sample_loop]
      cases htr : trace scene rng.unit q nSteps fuel
          (build_ray rng sigma N region k i) (iaJ k) (i + 3) with
      | none => simp
      | some p =>
          obtain ⟨L, i'⟩ := p
          dsimp only
          by_cases hf : isFiniteSpect L
          · rw [if_pos hf, ih]
            cases hs : sample_loop scene rng iaJ sigma N nSteps q fuel region ks i' with
            | none => simp
            | some pr =>
                obtain ⟨ls, ie⟩ := pr
                have hfc : finite_samples (L :: ls) = L :: finite_samples ls := by
                  simp [finite_samples, List.filter_cons, hf]
                simp only [Option.map]
                rw [hfc]
                simp only [List.foldl_cons, List.length_cons,
                  Option.some.injEq, Prod.mk.injEq]
                exact ⟨trivial, by omega, trivial⟩
          · rw [if_neg hf, ih]
            cases hs : sample_loop scene rng iaJ sigma N nSteps q fuel region ks i' with
            | none => simp
            | some pr =>
                obtain ⟨ls, ie⟩ := pr
                have hfc : finite_samples (L :: ls) = finite_samples ls := by
                  simp [finite_samples, List.filter_cons, hf]
                simp only [Option.map]
                rw [hfc]

lemma agg_empty (s : IState) : flat_aggregate_intersect [] s = (false, s) := rfl

lemma trace_empty (u : ℕ → ℝ) (q : ℝ) (nSteps fuel : ℕ) (hf : 1 ≤ fuel)
    (ray : Ray) (ia0 : SurfaceInteraction) (i : ℕ) :
    ∃ j, trace (flat_aggregate_intersect []) u q nSteps fuel ray ia0 i =
      some (zeroSpect, j) := by
  cases nSteps with
  | succ n =>
      refine ⟨i, ?_⟩
      simp [trace, trace_steps, agg_empty]
  | zero =>
      obtain ⟨f, rfl⟩ : ∃ f, fuel = f + 1 := ⟨fuel - 1, by omega⟩
      refine ⟨i + 1, ?_⟩
      by_cases hu : u i < q
      · simp [trace, trace_steps, trace_rr, agg_empty, hu]
      · simp [trace, trace_steps, trace_rr, agg_empty, hu]

lemma integ_loop_empty (rng : RngS) (iaJ : ℕ → SurfaceInteraction) (sigma : ℕ → ℕ)
    (N nSteps : ℕ) (q : ℝ) (fuel : ℕ) (region : Box) (hf : 1 ≤ fuel) :
    ∀ (ks : List ℕ) (s : Spect) (c i : ℕ), ∃ j,
      integ_loop (flat_aggregate_intersect []) rng iaJ sigma N nSteps q fuel region
        ks (s, c, i) = some (s, c + ks.length, j) := by
  intro ks
  induction ks with
  | nil =>
      intro s c i
      exact ⟨i, by simp [integ_loop]⟩
  | cons k ks ih =>
      intro s c i
      obtain ⟨j0, hj0⟩ := trace_empty rng.unit q nSteps fuel hf
        (build_ray rng sigma N region k i) (iaJ k) (i + 3)
      obtain ⟨j, hj⟩ := ih s (c + 1) j0
      refine ⟨j, ?_⟩
      have hfin : isFiniteSpect zeroSpect = true := rfl
      simp only [integ_loop, List.length_cons]
      rw [hj0]
      dsimp only
      rw [if_pos hfin, spect_add_zero, hj]
      simp only [Option.some.injEq, Prod.mk.injEq]
      exact ⟨trivial, by omega, trivial⟩

lemma integrate_empty (rng : RngS) (iaJ : ℕ → SurfaceInteraction) (N nSteps : ℕ)
    (q : ℝ) (fuel : ℕ) (region : Box) (i0 : ℕ) (hf : 1 ≤ fuel) (hN : 1 ≤ N) :
    ∃ j, integrate (flat_aggregate_intersect []) rng iaJ N nSteps q fuel region i0 =
      some (zeroSpect, j) := by
  obtain ⟨j, hj⟩ := integ_loop_empty rng iaJ (rng.perm i0) N nSteps q fuel region hf
    (List.range (N * N)) zeroSpect 0 (i0 + 1)
  refine ⟨j, ?_⟩
  unfold integrate
  rw [hj]
  have hN0 : N ≠ 0 := by omega
  have hM : ((0 + (List.range (N * N)).length : ℕ) : ℝ) ≠ 0 := by
    simp [List.length_range, hN0]
  simp [spectDivF, Flt.div, zeroSpect, hM, hN0]

lemma tile_row_all_zero (integ : Box → ℕ → Option (Spect × ℕ))
    (hint : ∀ b i, ∃ j, integ b i = some (zeroSpect, j)) (xr : ℕ → ℝ) (ya yb : ℝ) :
    ∀ (cols : List ℕ) (i : ℕ), ∃ r j,
      tile_row integ xr ya yb cols i = some (r, j) ∧ r.length = cols.length ∧
        ∀ px ∈ r, px = zeroSpect := by
  intro cols
  induction cols with
  | nil =>
      intro i
      exact ⟨[], i, rfl, rfl, by simp⟩
  | cons col cols ih =>
      intro i
      obtain ⟨j0, hj0⟩ := hint ⟨(xr col, ya), (xr (col + 1), yb)⟩ i
      obtain ⟨r, j, hr, hlen, hall⟩ := ih j0
      refine ⟨zeroSpect :: r, j, by simp [tile_row, hj0, hr], by simp [hlen], ?_⟩
      intro px hpx
      rcases List.mem_cons.mp hpx with h | h
      · exact h
      · exact hall px h

lemma tile_rows_all_zero (integ : Box → ℕ → Option (Spect × ℕ))
    (hint : ∀ b i, ∃ j, integ b i = some (zeroSpect, j)) (xr yr : ℕ → ℝ) (W : ℕ) :
    ∀ (rows : List ℕ) (i : ℕ), ∃ rs j,
      tile_rows integ xr yr W rows i = some (rs, j) ∧ rs.length = rows.length ∧
        ∀ r ∈ rs, r.length = W ∧ ∀ px ∈ r, px = zeroSpect := by
  intro rows
  induction rows with
  | nil =>
      intro i
      exact ⟨[], i, rfl, rfl, by simp⟩
  | cons row rest ih =>
      intro i
      obtain ⟨r, j0, hr, hrlen, hrall⟩ :=
        tile_row_all_zero integ hint xr (yr row) (yr (row + 1)) (List.range W) i
      obtain ⟨rs, j, hrs, hlen, hall⟩ := ih j0
      refine ⟨r :: rs, j, by simp [tile_rows, hr, hrs], by simp [hlen], ?_⟩
      intro r' hr'
      rcases List.mem_cons.mp hr' with h | h
      · subst h
        exact ⟨by simp [hrlen], hrall⟩
      · exact hall r' h

lemma tile_row_total (integ : Box → ℕ → Option (Spect × ℕ))
    (hint : ∀ b i, ∃ r, integ b i = some r) (xr : ℕ → ℝ) (ya yb : ℝ) :
    ∀ (cols : List ℕ) (i : ℕ), ∃ r, tile_row integ xr ya yb cols i = some r := by
  intro cols
  induction cols with
  | nil => intro i; exact ⟨([], i), rfl⟩
  | cons col cols ih =>
      intro i
      obtain ⟨⟨px, j0⟩, hj0⟩ := hint ⟨(xr col, ya), (xr (col + 1), yb)⟩ i
      obtain ⟨⟨r, j⟩, hr⟩ := ih j0
      exact ⟨(px :: r, j), by simp [tile_row, hj0, hr]⟩

lemma tile_rows_total (integ : Box → ℕ → Option (Spect × ℕ))
    (hint : ∀ b i, ∃ r, integ b i = some r) (xr yr : ℕ → ℝ) (W : ℕ) :
    ∀ (rows : List ℕ) (i : ℕ), ∃ rs, tile_rows integ xr yr W rows i = some rs := by
  intro rows
  induction rows with
  | nil => intro i; exact ⟨([], i), rfl⟩
  | cons row rest ih =>
      intro i
      obtain ⟨⟨r, j0⟩, hr⟩ := tile_row_total integ hint xr (yr row) (yr (row + 1))
        (List.range W) i
      obtain ⟨⟨rs, j⟩, hrs⟩ := ih j0
      exact ⟨(r :: rs, j), by simp [tile_rows, hr, hrs]⟩

/-- C9: for every pixel region (and every RNG behaviour), the estimate
returned by `integrate` is the sum of exactly those per-sample radiances
whose three components are all finite, divided by the count of those
samples; non-finite samples are excluded from both the numerator and the
denominator (including the count-zero case, where the division itself yields
the non-finite float `0/0`). -/
theorem integrate_finite_filter (scene : IntersectFn) (rng : RngS)
    (iaJ : ℕ → SurfaceInteraction) (N nSteps : ℕ) (q : ℝ) (fuel : ℕ)
    (region : Box) (i0 : ℕ) :
    integrate scene rng iaJ N nSteps q fuel region i0 =
      (sample_lis scene rng iaJ N nSteps q fuel region i0).map
        (fun p => (spec_estimate p.1, p.2)) := by
  unfold integrate sample_lis
  rw [integ_loop_eq_sample]
  cases sample_loop scene rng iaJ (rng.perm i0) N nSteps q fuel region
      (List.range (N * N)) (i0 + 1) with
  | none => rfl
  | some p => simp [spec_estimate]

/-- C8: an empty scene is legal and renders to an all-zero film: every traced
path returns zero radiance (for any ray, any RNG stream and any fuel at least
one), every pixel estimate is zero (all samples are finite), and `render`
with one tile returns a film of the requested shape whose pixels are all
`(0, 0, 0)`. -/
theorem empty_scene_renders_zero (u : ℕ → ℝ) (q : ℝ) (nSteps fuel : ℕ)
    (hf : 1 ≤ fuel) :
    (∀ (ray : Ray) (ia0 : SurfaceInteraction) (i : ℕ), ∃ j,
      trace (flat_aggregate_intersect []) u q nSteps fuel ray ia0 i =
        some (zeroSpect, j)) ∧
    ∀ (rng : RngS) (iaJ : ℕ → SurfaceInteraction) (N : ℕ), 1 ≤ N →
      ((∀ (region : Box) (i0 : ℕ), ∃ j,
        integrate (flat_aggregate_intersect []) rng iaJ N nSteps q fuel region i0 =
          some (zeroSpect, j)) ∧
      ∀ (tileRngs : ℕ → RngS) (region : Box) (W H : ℕ) (nT : ℤ), nT ≤ 1 →
        ∃ film,
          render (fun r => integrate (flat_aggregate_intersect []) r iaJ N nSteps q fuel)
            tileRngs region W H nT = some film ∧
          film.length = H ∧ (∀ row ∈ film, row.length = W) ∧
          ∀ row ∈ film, ∀ px ∈ row, px = zeroSpect) := by
  refine ⟨trace_empty u q nSteps fuel hf, ?_⟩
  intro rng iaJ N hN
  refine ⟨fun region i0 => integrate_empty rng iaJ N nSteps q fuel region i0 hf hN, ?_⟩
  intro tileRngs region W H nT hnT
  obtain ⟨rs, j, hrs, hlen, hall⟩ :=
    tile_rows_all_zero
      (integrate (flat_aggregate_intersect []) (tileRngs 0) iaJ N nSteps q fuel)
      (fun b i => integrate_empty (tileRngs 0) iaJ N nSteps q fuel b i hf hN)
      (linspace_at region.lo.1 region.hi.1 W) (linspace_at region.lo.2 region.hi.2 H)
      W (List.range H) 0
  refine ⟨rs, ?_, by simp [hlen], fun row hrow => (hall row hrow).1,
    fun row hrow => (hall row hrow).2⟩
  unfold render render_tile
  rw [if_pos hnT, hrs]
  rfl

/-- C8 witness: the empty-scene theorem applied to a concrete configuration
(`n_steps = 1`, fuel 1, one sample per axis, a 4x4 film over the region
from `(-1, -1)` to `(1, 1)`, one tile, a constant RNG stream). -/
theorem empty_scene_renders_zero_witness :
    (∃ j, trace (flat_aggregate_intersect []) (fun _ => 0) (1 / 2) 1 1
        ⟨((0 : ℝ), (0 : ℝ)), ((1 : ℝ), (0 : ℝ)), ⊤⟩ junk_ia 0 = some (zeroSpect, j)) ∧
    (∃ j, integrate (flat_aggregate_intersect []) ⟨fun _ => 0, fun _ k => k⟩
        (fun _ => junk_ia) 1 1 (1 / 2) 1 ⟨((-1 : ℝ), (-1 : ℝ)), ((1 : ℝ), (1 : ℝ))⟩ 0 =
        some (zeroSpect, j)) ∧
    ∃ film,
      render (fun r => integrate (flat_aggregate_intersect []) r (fun _ => junk_ia) 1 1 (1 / 2) 1)
        (fun _ => ⟨fun _ => 0, fun _ k => k⟩)
        ⟨((-1 : ℝ), (-1 : ℝ)), ((1 : ℝ), (1 : ℝ))⟩ 4 4 1 = some film ∧
      film.length = 4 ∧ (∀ row ∈ film, row.length = 4) ∧
      ∀ row ∈ film, ∀ px ∈ row, px = zeroSpect := by
  obtain ⟨h1, h2⟩ := empty_scene_renders_zero (fun _ => 0) (1 / 2) 1 1 (by norm_num)
  obtain ⟨h3, h4⟩ := h2 ⟨fun _ => 0, fun _ k => k⟩ (fun _ => junk_ia) 1 (by norm_num)
  exact ⟨h1 _ _ 0, h3 _ 0, h4 _ _ 4 4 1 (by norm_num)⟩

/-- C7 counterexample: the claim says invalid configurations are rejected
with a validation error.  At the concrete invalid inputs `n_samples = 0`,
`q = 2` the constructor succeeds (storing the values unchecked), and `render`
with the inverted region `((1,1),(0,0))` and `n_tiles = 0` proceeds and
returns a film instead of raising. -/
theorem no_validation_counterexample :
    path_tracer_init (flat_aggregate_intersect []) 0 3 2 =
      Except.ok ⟨flat_aggregate_intersect [], 0, 3, 2⟩ ∧
    render (fun _ _ i => some (zeroSpect, i)) (fun _ => ⟨fun _ => 0, fun _ k => k⟩)
        ⟨((1 : ℝ), (1 : ℝ)), ((0 : ℝ), (0 : ℝ))⟩ 2 2 0 =
      some [[zeroSpect, zeroSpect], [zeroSpect, zeroSpect]] := by
  constructor
  · rfl
  · rfl

/-- C7 (amended): no validation is performed anywhere: `PathTracer.__init__`
accepts every `n_samples`, `n_steps` (wrapping them through `uint32`) and
every `q`, and `render` (single-tile path, `n_tiles ≤ 1`) accepts every
region — including `x0 ≥ x1` or `y0 ≥ y1` — every film size including zero
dimensions, and every `n_tiles ≤ 1` including zero and negative values,
returning a film rather than raising. -/
theorem no_validation_amended :
    (∀ (e : IntersectFn) (nSamples nSteps : ℤ) (q : ℝ),
      path_tracer_init e nSamples nSteps q =
        Except.ok ⟨e, (nSamples % (2 : ℤ) ^ 32).toNat, (nSteps % (2 : ℤ) ^ 32).toNat, q⟩) ∧
    (∀ (integOf : RngS → Box → ℕ → Option (Spect × ℕ)) (tileRngs : ℕ → RngS)
        (region : Box) (W H : ℕ) (nTiles : ℤ), nTiles ≤ 1 →
      (∀ rng b i, ∃ r, integOf rng b i = some r) →
      ∃ film, render integOf tileRngs region W H nTiles = some film) := by
  refine ⟨fun e nSamples nSteps q => rfl, ?_⟩
  intro integOf tileRngs region W H nTiles hnT hint
  obtain ⟨⟨rs, j⟩, hrs⟩ := tile_rows_total (integOf (tileRngs 0)) (hint (tileRngs 0))
    (linspace_at region.lo.1 region.hi.1 W) (linspace_at region.lo.2 region.hi.2 H)
    W (List.range H) 0
  refine ⟨rs, ?_⟩
  unfold render render_tile
  rw [if_pos hnT, hrs]
  rfl

/-- C7 witness: the amended theorem applied to concrete invalid inputs:
`n_samples = -1` (wrapping to `4294967295`), `q = 2`, and a render call with
an inverted region, zero film dimensions and `n_tiles = 0`. -/
theorem no_validation_amended_witness :
    path_tracer_init (flat_aggregate_intersect []) (-1) 3 2 =
      Except.ok ⟨flat_aggregate_intersect [], 4294967295, 3, 2⟩ ∧
    ∃ film, render (fun _ _ i => some (zeroSpect, i)) (fun _ => ⟨fun _ => 0, fun _ k => k⟩)
        ⟨((1 : ℝ), (1 : ℝ)), ((0 : ℝ), (0 : ℝ))⟩ 0 0 0 = some film := by
  constructor
  · have h := no_validation_amended.1 (flat_aggregate_intersect []) (-1) 3 2
    rw [h]
    rfl
  · exact no_validation_amended.2 _ _ _ 0 0 0 (by norm_num)
      (fun rng b i => ⟨(zeroSpect, i), rfl⟩)

end Light2d
